import Mathlib

/-!
Verification of the local pointer / escape analysis core (abstract domain,
fixpoint solver, escape summaries and their textual encoding), shallowly
embedded in Lean.  The analysis implementation itself (`LocalPointersAnalysis`)
is only exercised by the repository's unit tests, so every component is
reconstructed faithfully from the design specification's data model and
transfer rules; the unit-test scenarios are then replayed against the
embedding and the specified algebraic laws are proved in full generality.
-/

/-- Heap-reference identity: an opaque, identity-compared token denoting the
references that could result from evaluating a specific program point.
Modelled as a natural-number handle assigned to each reference-producing
instruction. -/
abbrev PtrId := Nat

/-- Modelled from the spec: `PointsToSet` from the missing
`LocalPointersAnalysis` sources — either a finite set of heap-reference
identities or the distinguished `Any` (top) element meaning "could denote any
reference, precision lost". -/
inductive PointsToSet where
  | finite (s : Finset PtrId)
  | any
deriving DecidableEq

/-- The bottom element: the empty finite set of identities. -/
def PointsToSet.bot : PointsToSet := .finite ∅

/-- Modelled from the spec: `singleton(id)` builds the one-element points-to
set. -/
def PointsToSet.singleton (id : PtrId) : PointsToSet := .finite {id}

/-- Modelled from the spec: join of two points-to sets — set union, with `Any`
absorbing. -/
def PointsToSet.union : PointsToSet → PointsToSet → PointsToSet
  | .finite s, .finite t => .finite (s ∪ t)
  | _, _ => .any

/-- Modelled from the spec: `is_top()` recognises the `Any` element. -/
def PointsToSet.is_top : PointsToSet → Bool
  | .any => true
  | .finite _ => false

/-- Modelled from the spec: `contains(id)` membership query; on `Any` every
identity may be denoted. -/
def PointsToSet.contains : PointsToSet → PtrId → Bool
  | .finite s, id => decide (id ∈ s)
  | .any, _ => true

/-- Modelled from the spec: `elements()` is defined only when the set is not
top; calling it on `Any` is a domain-misuse (assertion) failure, modelled as
`none`. -/
def PointsToSet.elements : PointsToSet → Option (Finset PtrId)
  | .finite s => some s
  | .any => none

/-- The elements of a points-to set with the top case defaulted to the empty
set; used where the spec leaves escaping a top-valued slot as an
implementation choice. -/
def PointsToSet.elemsD : PointsToSet → Finset PtrId
  | .finite s => s
  | .any => ∅

/-- The partial order of the points-to lattice:
`∅ ⊑ finite sets (by inclusion) ⊑ Any`. -/
def PointsToSet.le : PointsToSet → PointsToSet → Prop
  | _, .any => True
  | .any, .finite _ => False
  | .finite s, .finite t => s ⊆ t

instance : Std.Commutative PointsToSet.union :=
  ⟨fun p q => by cases p <;> cases q <;> simp [PointsToSet.union, Finset.union_comm]⟩

instance : Std.Associative PointsToSet.union :=
  ⟨fun p q r => by cases p <;> cases q <;> cases r <;> simp [PointsToSet.union, Finset.union_assoc]⟩

/-- Modelled from the spec: `ParamSet` — either a finite set of parameter
indices or `Top` ("cannot be characterized, callers must assume the worst").
Used exclusively inside `EscapeSummary.returned_parameters`. -/
inductive ParamSet where
  | finite (ps : Finset Nat)
  | top
deriving DecidableEq

/-- Modelled from the spec: `Environment` — per-program-point abstract state:
a mapping from local slot to `PointsToSet` (a list indexed by slot id, an
absent slot reading as the empty set) plus a monotonically growing set of
escaped identities. -/
@[ext]
structure Environment where
  slots : List PointsToSet
  escaped : Finset PtrId
deriving DecidableEq

/-- Bottom environment: empty slot mapping and empty escaped set. -/
def Environment.bot : Environment := ⟨[], ∅⟩

/-- Read a slot's points-to set; an absent slot is the empty set. -/
def Environment.get_pointers (e : Environment) (slot : Nat) : PointsToSet :=
  e.slots.getD slot PointsToSet.bot

/-- Overwrite one slot of the slot list, padding with bottom as needed. -/
def setSlot (l : List PointsToSet) (i : Nat) (p : PointsToSet) : List PointsToSet :=
  (l ++ List.replicate (i + 1 - l.length) PointsToSet.bot).set i p

/-- Internal helper of the transfer rules: overwrite a slot's points-to set. -/
def Environment.set_pointers (e : Environment) (slot : Nat) (p : PointsToSet) : Environment :=
  { e with slots := setSlot e.slots slot p }

/-- Modelled from the spec: `set_fresh_pointer(slot, id)` overwrites the
slot's points-to set with `singleton(id)`. -/
def Environment.set_fresh_pointer (e : Environment) (slot : Nat) (id : PtrId) : Environment :=
  e.set_pointers slot (PointsToSet.singleton id)

/-- Modelled from the spec: `set_alias(dest, src)` copies the source slot's
points-to set into the destination slot. -/
def Environment.set_alias (e : Environment) (dest src : Nat) : Environment :=
  e.set_pointers dest (e.get_pointers src)

/-- Modelled from the spec: `set_may_escape(id)` records a single identity as
escaped. -/
def Environment.set_may_escape (e : Environment) (id : PtrId) : Environment :=
  { e with escaped := insert id e.escaped }

/-- Modelled from the spec: `set_may_escape_slot(slot)` unions the slot's
points-to set into the escaped set.  (When the slot is top the spec leaves
the treatment open; this model adds nothing in that case.) -/
def Environment.set_may_escape_slot (e : Environment) (slot : Nat) : Environment :=
  { e with escaped := e.escaped ∪ (e.get_pointers slot).elemsD }

/-- Modelled from the spec: `may_have_escaped(id)` — the escape predicate. -/
def Environment.may_have_escaped (e : Environment) (id : PtrId) : Bool :=
  decide (id ∈ e.escaped)

/-- Modelled from the spec: `join(other)` — pointwise join of the slot maps
(a missing slot treated as the empty set) and union of the escaped sets. -/
def Environment.join (a b : Environment) : Environment :=
  ⟨(List.range (max a.slots.length b.slots.length)).map
      (fun i => (a.get_pointers i).union (b.get_pointers i)),
   a.escaped ∪ b.escaped⟩

/-- The environment partial order: pointwise on slots (absent slot treated as
empty) and subset on the escaped set. -/
def Environment.le (a b : Environment) : Prop :=
  (∀ i, (a.get_pointers i).le (b.get_pointers i)) ∧ a.escaped ⊆ b.escaped

/-- Scenario A's first environment: slot 0 and slot 1 both hold the single
identity `X`. -/
def envScenA1 (X : PtrId) : Environment :=
  (Environment.bot.set_fresh_pointer 0 X).set_fresh_pointer 1 X

/-- Scenario A's second environment: slot 0 holds `X` and is marked escaped,
slot 1 holds `Y`. -/
def envScenA2 (X Y : PtrId) : Environment :=
  ((Environment.bot.set_fresh_pointer 0 X).set_may_escape_slot 0).set_fresh_pointer 1 Y

/-- Modelled from the spec: `EscapeSummary` — the externally observable
contract of one method: the set of escaping parameter indices and the
`ParamSet` of returned parameters. -/
@[ext]
structure EscapeSummary where
  escaping_parameters : Finset Nat
  returned_parameters : ParamSet
deriving DecidableEq

/-- Modelled from the spec: `InvokeToSummaryMap` — read-only input mapping a
call-site identity (the invoke instruction's program point) to its callee's
`EscapeSummary`; absence of an entry means the callee is unknown. -/
abbrev InvokeToSummaryMap := List (Nat × EscapeSummary)

/-- Modelled from the spec: the conceptual instruction categories of the
transfer-rule table — reference-producing parameter loads, other
reference-producing instructions (allocations, static reads, and the like),
moves of reference values, calls, stores to the heap, returns of a reference,
and everything else. -/
inductive Instr where
  | loadParam (dest : Nat)
  | fresh (dest : Nat)
  | move (dest src : Nat)
  | invoke (args : List Nat) (res : Option Nat)
  | storeStatic (src : Nat)
  | ret (src : Nat)
  | other
deriving DecidableEq

/-- Union of the points-to sets of the argument slots whose formal index lies
in the given finite `ParamSet`. -/
def unionArgs (e : Environment) (args : List Nat) (idxs : Finset Nat) : PointsToSet :=
  Finset.fold PointsToSet.union PointsToSet.bot
    (fun k => e.get_pointers (args.getD k 0)) idxs

/-- Modelled from the spec: the per-instruction transfer function.  A call
with a known summary escapes exactly the argument slots named by the
summary's `escaping_parameters` and rebuilds the result slot from
`returned_parameters`; a call with no known summary conservatively unions
every argument slot's points-to set into the escaped set and gives the
result slot a fresh call-site identity. -/
def transferInstr (smap : InvokeToSummaryMap) (pp : Nat) (i : Instr)
    (e : Environment) : Environment :=
  match i with
  | .loadParam dest => e.set_fresh_pointer dest pp
  | .fresh dest => e.set_fresh_pointer dest pp
  | .move dest src => e.set_alias dest src
  | .storeStatic src => e.set_may_escape_slot src
  | .ret _ => e
  | .other => e
  | .invoke args res =>
    match List.lookup pp smap with
    | some summ =>
      let e1 := (List.range args.length).foldl
        (fun acc k =>
          if k ∈ summ.escaping_parameters then acc.set_may_escape_slot (args.getD k 0)
          else acc) e
      match res with
      | none => e1
      | some d =>
        match summ.returned_parameters with
        | .top => e1.set_fresh_pointer d pp
        | .finite idxs => e1.set_pointers d (unionArgs e1 args idxs)
    | none =>
      let e1 := args.foldl (fun acc a => acc.set_may_escape_slot a) e
      match res with
      | none => e1
      | some d => e1.set_fresh_pointer d pp

/-- A basic block: an ordered list of instructions, each tagged with its
program-point identity. -/
abbrev Block := List (Nat × Instr)

/-- Modelled from the spec: the control-flow graph consumed by the solver —
ordered basic blocks, directed edges between block indices, an entry block
and an exit block. -/
structure CFG where
  blocks : List Block
  edges : List (Nat × Nat)
  entry : Nat
  exitIdx : Nat

/-- Sequential application of the transfer function to a block's
instructions. -/
def transferBlock (smap : InvokeToSummaryMap) (code : Block) (e : Environment) : Environment :=
  code.foldl (fun acc pi => transferInstr smap pi.1 pi.2 acc) e

/-- Predecessor block indices of a block. -/
def predsOf (cfg : CFG) (b : Nat) : List Nat :=
  cfg.edges.filterMap (fun ed => if ed.2 = b then some ed.1 else none)

/-- Exit environment of one block under a given per-block entry state. -/
def blockExit (cfg : CFG) (smap : InvokeToSummaryMap) (state : List Environment)
    (b : Nat) : Environment :=
  transferBlock smap (cfg.blocks.getD b []) (state.getD b Environment.bot)

/-- Modelled from the spec: one round of chaotic iteration — every block's
entry state becomes the join of its predecessors' exit states, the entry
block additionally joined with the caller-supplied initial environment. -/
def fpStep (cfg : CFG) (smap : InvokeToSummaryMap) (init : Environment)
    (state : List Environment) : List Environment :=
  (List.range cfg.blocks.length).map (fun b =>
    let pj := (predsOf cfg b).foldl
      (fun acc p => acc.join (blockExit cfg smap state p)) Environment.bot
    if b = cfg.entry then pj.join init else pj)

/-- Modelled from the spec: `FixpointIterator::run` — iterate the dataflow
step from the all-bottom state; on the concrete graphs below a small fuel
reaches the (checked) fixpoint. -/
def fpRun (cfg : CFG) (smap : InvokeToSummaryMap) (init : Environment)
    (fuel : Nat) : List Environment :=
  (fpStep cfg smap init)^[fuel] (List.replicate cfg.blocks.length Environment.bot)

/-- Modelled from the spec: constructing the fixpoint iterator from a
control-flow graph alone — the summary map defaults to empty. -/
def fpRunNoSummaries (cfg : CFG) (init : Environment) (fuel : Nat) : List Environment :=
  fpRun cfg [] init fuel

/-- Modelled from the spec: `get_exit_state_at` on the exit block — the
converged environment after the exit block's instructions. -/
def exitState (cfg : CFG) (smap : InvokeToSummaryMap) (state : List Environment) : Environment :=
  blockExit cfg smap state cfg.exitIdx

/-- The ordered list of formal-parameter identities, established from the
parameter-load instructions in program order. -/
def formalParams (cfg : CFG) : List Nat :=
  cfg.blocks.foldl
    (fun acc blk => acc ++ blk.filterMap
      (fun pi => match pi.2 with
        | .loadParam _ => some pi.1
        | _ => none)) []

/-- The union of the points-to sets recorded at the return points of one
block, walking the block from its entry environment. -/
def blockReturned (smap : InvokeToSummaryMap) (code : Block) (e : Environment) : PointsToSet :=
  (code.foldl
    (fun (acc : Environment × PointsToSet) pi =>
      (transferInstr smap pi.1 pi.2 acc.1,
       match pi.2 with
       | .ret src => acc.2.union (acc.1.get_pointers src)
       | _ => acc.2))
    (e, PointsToSet.bot)).2

/-- The union over all blocks of the points-to sets recorded at return
points. -/
def returnedUnion (cfg : CFG) (smap : InvokeToSummaryMap) (state : List Environment) : PointsToSet :=
  (List.range cfg.blocks.length).foldl
    (fun acc b =>
      acc.union (blockReturned smap (cfg.blocks.getD b []) (state.getD b Environment.bot)))
    PointsToSet.bot

/-- Modelled from the spec: `get_escape_summary` — project the converged
analysis state into an `EscapeSummary`: a parameter escapes iff its identity
is in the exit environment's escaped set; the returned `ParamSet` is the set
of parameter indices covering the union of all returned points-to sets, or
`Top` when that union is `Any` or mentions a non-parameter identity. -/
def get_escape_summary (cfg : CFG) (smap : InvokeToSummaryMap)
    (state : List Environment) : EscapeSummary :=
  let params := formalParams cfg
  let ex := exitState cfg smap state
  let escaping := (Finset.range params.length).filter
    (fun i => params.getD i 0 ∈ ex.escaped)
  let ret :=
    match returnedUnion cfg smap state with
    | .any => ParamSet.top
    | .finite s =>
      if s ⊆ params.toFinset then
        ParamSet.finite ((Finset.range params.length).filter (fun i => params.getD i 0 ∈ s))
      else ParamSet.top
  ⟨escaping, ret⟩

/-- Scenario D's method body: load parameters into slots 0 and 1, store
slot 1 to a static field, return slot 0.  One basic block. -/
def cfgScenD : CFG :=
  ⟨[[(0, Instr.loadParam 0), (1, Instr.loadParam 1),
     (2, Instr.storeStatic 1), (3, Instr.ret 0)]], [], 0, 0⟩

/-- Scenario E's method body: read a static field into slot 0 (a fresh
non-parameter identity) and return it.  One basic block. -/
def cfgScenE : CFG :=
  ⟨[[(0, Instr.fresh 0), (1, Instr.ret 0)]], [], 0, 0⟩

/-- Scenario C's method body: load parameters into slots 0 and 1, branch,
conditionally overwrite slot 0 with a fresh allocation (whose constructor
call has a known, empty summary), then alias slot 1 to slot 0, store slot 1
to a static field and return slot 0. -/
def cfgScenC : CFG :=
  ⟨[[(0, Instr.loadParam 0), (1, Instr.loadParam 1), (2, Instr.other)],
    [(3, Instr.fresh 0), (4, Instr.invoke [0] none)],
    [(5, Instr.move 1 0), (6, Instr.storeStatic 1), (7, Instr.ret 0)]],
   [(0, 1), (0, 2), (1, 2)], 0, 2⟩

/-- The summary map of scenario C: the constructor call at program point 4
has a known summary with no escaping parameters. -/
def smapScenC : InvokeToSummaryMap := [(4, ⟨∅, ParamSet.finite ∅⟩)]

/-- The character of one decimal digit. -/
def dChar (d : Nat) : Char := Char.ofNat (48 + d)

/-- Big-endian decimal digit characters of a positive number, by repeated
division (fuelled structural recursion so that it evaluates by `rfl`). -/
def digitCharsAux : Nat → Nat → List Char
  | 0, _ => []
  | _ + 1, 0 => []
  | fuel + 1, n + 1 => digitCharsAux fuel ((n + 1) / 10) ++ [dChar ((n + 1) % 10)]

/-- Big-endian decimal digit characters of a natural number. -/
def digitChars (n : Nat) : List Char := if n = 0 then ['0'] else digitCharsAux n n

/-- The characters of the literal token `Top`. -/
def topChars : List Char := ['T', 'o', 'p']

/-- Modelled from the spec: the tokens of the s-expression primitive used by
the summary serialization — parentheses, `#<n>` integer tokens and literal
atoms. -/
inductive Token where
  | lp
  | rp
  | hash (n : Nat)
  | atomTok (cs : List Char)
deriving DecidableEq

/-- Recognises the opening parenthesis token. -/
def Token.isLp : Token → Bool
  | .lp => true
  | _ => false

/-- Recognises the closing parenthesis token. -/
def Token.isRp : Token → Bool
  | .rp => true
  | _ => false

/-- A single space is written between two adjacent tokens unless the first is
an opening or the second a closing parenthesis — exactly the spacing the
generic s-expression writer produces. -/
def needSpace (t u : Token) : Bool := !t.isLp && !u.isRp

/-- The characters of one token. -/
def tokChars : Token → List Char
  | .lp => ['(']
  | .rp => [')']
  | .hash n => '#' :: digitChars n
  | .atomTok cs => cs

/-- Render a token list as text with the s-expression writer's spacing. -/
def renderToks : List Token → List Char
  | [] => []
  | [t] => tokChars t
  | t :: u :: rest => tokChars t ++ (if needSpace t u then [' '] else []) ++ renderToks (u :: rest)

/-- Modelled from the spec: the token stream of a summary —
`(<escaping-list> <returned>)` where each list holds `#<n>` tokens in
ascending order and a top `returned_parameters` is the literal `Top`. -/
def toTokens (s : EscapeSummary) : List Token :=
  [Token.lp, Token.lp] ++ ((s.escaping_parameters.sort (· ≤ ·)).map Token.hash) ++ [Token.rp] ++
  (match s.returned_parameters with
   | ParamSet.top => [Token.atomTok topChars]
   | ParamSet.finite ps => [Token.lp] ++ ((ps.sort (· ≤ ·)).map Token.hash) ++ [Token.rp]) ++
  [Token.rp]

/-- Modelled from the spec: `to_text` — the exact textual encoding of a
summary. -/
def to_text (s : EscapeSummary) : String := String.mk (renderToks (toTokens s))

/-- Lexer state: between tokens, after `#`, inside a number, or inside a
literal atom (characters held in reverse). -/
inductive LexState where
  | ready
  | numStart
  | num (v : Nat)
  | word (cs : List Char)
deriving DecidableEq

/-- Lexer transition from the between-tokens state. -/
def stepReady (acc : List Token) (c : Char) : Option (List Token × LexState) :=
  if c = '(' then some (acc ++ [Token.lp], LexState.ready)
  else if c = ')' then some (acc ++ [Token.rp], LexState.ready)
  else if c = ' ' then some (acc, LexState.ready)
  else if c = '#' then some (acc, LexState.numStart)
  else if c.isAlpha then some (acc, LexState.word [c])
  else none

/-- One lexer transition; `none` is a lexical error. -/
def lexStep (s? : Option (List Token × LexState)) (c : Char) : Option (List Token × LexState) :=
  match s? with
  | none => none
  | some (acc, LexState.ready) => stepReady acc c
  | some (acc, LexState.numStart) =>
    if c.isDigit then some (acc, LexState.num (c.toNat - 48)) else none
  | some (acc, LexState.num v) =>
    if c.isDigit then some (acc, LexState.num (v * 10 + (c.toNat - 48)))
    else stepReady (acc ++ [Token.hash v]) c
  | some (acc, LexState.word cs) =>
    if c.isAlpha then some (acc, LexState.word (c :: cs))
    else stepReady (acc ++ [Token.atomTok cs.reverse]) c

/-- Flush the lexer's final state into its pending token, if any. -/
def lexFinish : Option (List Token × LexState) → Option (List Token)
  | none => none
  | some (acc, LexState.ready) => some acc
  | some (_, LexState.numStart) => none
  | some (acc, LexState.num v) => some (acc ++ [Token.hash v])
  | some (acc, LexState.word cs) => some (acc ++ [Token.atomTok cs.reverse])

/-- Modelled from the spec: the generic token-stream reader over raw text. -/
def lexText (s : String) : Option (List Token) :=
  lexFinish (s.data.foldl lexStep (some ([], LexState.ready)))

/-- Greedily take the leading run of `#<n>` tokens. -/
def parseHashes : List Token → List Nat × List Token
  | Token.hash n :: rest =>
    let p := parseHashes rest
    (n :: p.1, p.2)
  | ts => ([], ts)

/-- Decode stage 4: after the returned list's opening parenthesis and its
integers, exactly the returned list's and the outer form's closing
parentheses may remain. -/
def fromTokens4 (es : List Nat) : List Nat × List Token → Except String EscapeSummary
  | (rs, [Token.rp, Token.rp]) => Except.ok ⟨es.toFinset, ParamSet.finite rs.toFinset⟩
  | _ => Except.error "malformed returned parameter list"

/-- Decode stage 3: the returned part is either the literal `Top` or a
parenthesized list of integers, followed by the outer closing parenthesis. -/
def fromTokens3 (es : List Nat) : List Token → Except String EscapeSummary
  | [Token.atomTok cs, Token.rp] =>
    if cs = topChars then Except.ok ⟨es.toFinset, ParamSet.top⟩
    else Except.error "unknown literal where Top was expected"
  | Token.lp :: rest => fromTokens4 es (parseHashes rest)
  | _ => Except.error "malformed returned part"

/-- Decode stage 2: the escaping list must close right after its integer
tokens. -/
def fromTokens2 : List Nat × List Token → Except String EscapeSummary
  | (es, Token.rp :: rest) => fromTokens3 es rest
  | _ => Except.error "non-integer token in escaping list"

/-- Modelled from the spec: `EscapeSummary::from_s_expr` over the token
stream — wrong arity, a non-integer token where `#<n>` is expected, or an
unknown literal where `Top` is expected are recoverable parse errors. -/
def fromTokens (ts : List Token) : Except String EscapeSummary :=
  match ts with
  | Token.lp :: Token.lp :: rest => fromTokens2 (parseHashes rest)
  | _ => Except.error "expected two parenthesized forms"

/-- Modelled from the spec: `EscapeSummary::from_text` — read the token
stream and decode it; every failure is a recoverable error and no partially
populated summary is ever produced. -/
def from_text (s : String) : Except String EscapeSummary :=
  match lexText s with
  | none => Except.error "unreadable token stream"
  | some ts => fromTokens ts

/-- Well-formed tokens: literal atoms are nonempty and alphabetic. -/
def Token.wf : Token → Prop
  | .atomTok cs => cs ≠ [] ∧ ∀ c ∈ cs, c.isAlpha = true
  | _ => True

/-- The pending token buried in a lexer state. -/
def flushT : LexState → List Token
  | LexState.ready => []
  | LexState.numStart => []
  | LexState.num v => [Token.hash v]
  | LexState.word cs => [Token.atomTok cs.reverse]

/-- States with no half-read number. -/
def LexState.flushable : LexState → Prop
  | LexState.numStart => False
  | _ => True

/-- Character lists that open with a parenthesis. -/
def headBound : List Char → Prop
  | [] => False
  | c :: _ => c = '(' ∨ c = ')'

/-- The lexer configuration reached immediately after one token's characters,
starting between tokens. -/
def postOf (t : Token) (acc : List Token) : List Token × LexState :=
  match t with
  | Token.lp => (acc ++ [Token.lp], LexState.ready)
  | Token.rp => (acc ++ [Token.rp], LexState.ready)
  | Token.hash n => (acc, LexState.num n)
  | Token.atomTok cs => (acc, LexState.word cs.reverse)
theorem PointsToSet.union_comm (p q : PointsToSet) : p.union q = q.union p := by
  cases p <;> cases q <;> simp [PointsToSet.union, Finset.union_comm]

theorem PointsToSet.union_assoc (p q r : PointsToSet) :
    (p.union q).union r = p.union (q.union r) := by
  cases p <;> cases q <;> cases r <;> simp [PointsToSet.union, Finset.union_assoc]

theorem PointsToSet.union_self (p : PointsToSet) : p.union p = p := by
  cases p <;> simp [PointsToSet.union]

theorem PointsToSet.bot_union_bot : PointsToSet.bot.union PointsToSet.bot = PointsToSet.bot := by
  simp [PointsToSet.union, PointsToSet.bot]

theorem PointsToSet.le_union_left (p q : PointsToSet) : p.le (p.union q) := by
  cases p <;> cases q <;> simp [PointsToSet.union, PointsToSet.le]

theorem PointsToSet.le_union_right (p q : PointsToSet) : q.le (p.union q) := by
  cases p <;> cases q <;> simp [PointsToSet.union, PointsToSet.le]


theorem Environment.get_pointers_out (e : Environment) (i : Nat)
    (h : e.slots.length ≤ i) : e.get_pointers i = PointsToSet.bot := by
  simp [Environment.get_pointers, List.getD_eq_getElem?_getD, List.getElem?_eq_none h]

theorem Environment.get_pointers_join (a b : Environment) (i : Nat) :
    (a.join b).get_pointers i = (a.get_pointers i).union (b.get_pointers i) := by
  by_cases h : i < max a.slots.length b.slots.length
  · simp [Environment.join, Environment.get_pointers, List.getD_eq_getElem?_getD,
      List.getElem?_range, h]
  · push_neg at h
    have ha : a.slots.length ≤ i := le_trans (le_max_left _ _) h
    have hb : b.slots.length ≤ i := le_trans (le_max_right _ _) h
    have hj : ((a.join b).slots).length ≤ i := by
      simpa [Environment.join] using h
    rw [Environment.get_pointers_out _ _ hj, Environment.get_pointers_out a _ ha,
      Environment.get_pointers_out b _ hb, PointsToSet.bot_union_bot]

theorem Environment.join_slots_length (a b : Environment) :
    (a.join b).slots.length = max a.slots.length b.slots.length := by
  simp [Environment.join]

theorem Environment.get_pointers_lt (e : Environment) (i : Nat)
    (h : i < e.slots.length) : e.get_pointers i = e.slots[i] := by
  simp [Environment.get_pointers, List.getD_eq_getElem?_getD, List.getElem?_eq_getElem h]

theorem Environment.join_comm (a b : Environment) : a.join b = b.join a := by
  ext1
  · apply List.ext_getElem
    · simp [Environment.join_slots_length, Nat.max_comm]
    · intro i h1 h2
      rw [← Environment.get_pointers_lt _ _ h1, ← Environment.get_pointers_lt _ _ h2,
        Environment.get_pointers_join, Environment.get_pointers_join,
        PointsToSet.union_comm]
  · simp [Environment.join, Finset.union_comm]

theorem Environment.join_assoc (a b c : Environment) :
    (a.join b).join c = a.join (b.join c) := by
  ext1
  · apply List.ext_getElem
    · simp [Environment.join_slots_length, Nat.max_assoc]
    · intro i h1 h2
      rw [← Environment.get_pointers_lt _ _ h1, ← Environment.get_pointers_lt _ _ h2,
        Environment.get_pointers_join, Environment.get_pointers_join,
        Environment.get_pointers_join, Environment.get_pointers_join,
        PointsToSet.union_assoc]
  · simp [Environment.join, Finset.union_assoc]

theorem Environment.join_self (a : Environment) : a.join a = a := by
  ext1
  · apply List.ext_getElem
    · simp [Environment.join_slots_length]
    · intro i h1 h2
      rw [← Environment.get_pointers_lt _ _ h1, ← Environment.get_pointers_lt _ _ h2,
        Environment.get_pointers_join, PointsToSet.union_self]
  · simp [Environment.join]

theorem Environment.le_join_left (a b : Environment) : a.le (a.join b) := by
  constructor
  · intro i
    rw [Environment.get_pointers_join]
    exact PointsToSet.le_union_left _ _
  · exact Finset.subset_union_left

theorem Environment.le_join_right (a b : Environment) : b.le (a.join b) := by
  constructor
  · intro i
    rw [Environment.get_pointers_join]
    exact PointsToSet.le_union_right _ _
  · exact Finset.subset_union_right

/-- C5: joining an environment with slot 0 holding only X and slot 1 holding
only X against an environment where slot 0 holds only X, X is marked escaped
and slot 1 holds only Y yields slot 0 holding exactly X (size 1) with X
escaped, slot 1 holding exactly X and Y (size 2), and Y not escaped. -/
theorem spec_C5_domain_join (X Y : PtrId) (hXY : X ≠ Y) :
    ((envScenA1 X).join (envScenA2 X Y)).get_pointers 0 = PointsToSet.finite {X} ∧
    ({X} : Finset PtrId).card = 1 ∧
    ((envScenA1 X).join (envScenA2 X Y)).get_pointers 1 = PointsToSet.finite {X, Y} ∧
    ({X, Y} : Finset PtrId).card = 2 ∧
    ((envScenA1 X).join (envScenA2 X Y)).may_have_escaped X = true ∧
    ((envScenA1 X).join (envScenA2 X Y)).may_have_escaped Y = false := by
  have h10 : (envScenA1 X).get_pointers 0 = PointsToSet.finite {X} := rfl
  have h11 : (envScenA1 X).get_pointers 1 = PointsToSet.finite {X} := rfl
  have h20 : (envScenA2 X Y).get_pointers 0 = PointsToSet.finite {X} := rfl
  have h21 : (envScenA2 X Y).get_pointers 1 = PointsToSet.finite {Y} := rfl
  have hesc : ((envScenA1 X).join (envScenA2 X Y)).escaped = ∅ ∪ (∅ ∪ {X}) := rfl
  refine ⟨?_, ?_, ?_, ?_, ?_, ?_⟩
  · rw [Environment.get_pointers_join, h10, h20]
    simp [PointsToSet.union]
  · simp
  · rw [Environment.get_pointers_join, h11, h21]
    simp [PointsToSet.union, ← Finset.insert_eq]
  · rw [Finset.card_insert_of_not_mem (by simp [hXY]), Finset.card_singleton]
  · simp [Environment.may_have_escaped, hesc]
  · simp [Environment.may_have_escaped, hesc, hXY.symm]

/-- Witness for C5 at the concrete identities X = 1, Y = 2. -/
theorem spec_C5_domain_join_witness :
    (1 : PtrId) ≠ 2 ∧
    (((envScenA1 1).join (envScenA2 1 2)).get_pointers 0 = PointsToSet.finite {1} ∧
     ({1} : Finset PtrId).card = 1 ∧
     ((envScenA1 1).join (envScenA2 1 2)).get_pointers 1 = PointsToSet.finite {1, 2} ∧
     ({1, 2} : Finset PtrId).card = 2 ∧
     ((envScenA1 1).join (envScenA2 1 2)).may_have_escaped 1 = true ∧
     ((envScenA1 1).join (envScenA2 1 2)).may_have_escaped 2 = false) :=
  ⟨by decide, spec_C5_domain_join 1 2 (by decide)⟩

/-- C6: the environment join is commutative, associative and idempotent, and
both operands are below the join in the environment partial order. -/
theorem spec_C6_lattice_laws (a b c : Environment) :
    a.join b = b.join a ∧
    (a.join b).join c = a.join (b.join c) ∧
    a.join a = a ∧
    a.le (a.join b) ∧ b.le (a.join b) :=
  ⟨Environment.join_comm a b, Environment.join_assoc a b c, Environment.join_self a,
   Environment.le_join_left a b, Environment.le_join_right a b⟩

/-- C7: once an identity is in the escaped set, every public environment
operation (`set_fresh_pointer`, `set_alias`, `set_may_escape`,
`set_may_escape_slot`, `join` on either side) keeps it there — the escaped
set only grows. -/
theorem spec_C7_escape_monotone (e e2 : Environment) (id : PtrId)
    (h : e.may_have_escaped id = true) :
    (∀ slot id2, (e.set_fresh_pointer slot id2).may_have_escaped id = true) ∧
    (∀ dest src, (e.set_alias dest src).may_have_escaped id = true) ∧
    (∀ id2, (e.set_may_escape id2).may_have_escaped id = true) ∧
    (∀ slot, (e.set_may_escape_slot slot).may_have_escaped id = true) ∧
    (e.join e2).may_have_escaped id = true ∧
    (e2.join e).may_have_escaped id = true := by
  simp only [Environment.may_have_escaped, decide_eq_true_eq] at h
  refine ⟨?_, ?_, ?_, ?_, ?_, ?_⟩
  · intro slot id2
    simpa [Environment.set_fresh_pointer, Environment.set_pointers,
      Environment.may_have_escaped] using h
  · intro dest src
    simpa [Environment.set_alias, Environment.set_pointers,
      Environment.may_have_escaped] using h
  · intro id2
    simp [Environment.set_may_escape, Environment.may_have_escaped]
    exact Or.inr h
  · intro slot
    simp [Environment.set_may_escape_slot, Environment.may_have_escaped]
    exact Or.inl h
  · simp [Environment.join, Environment.may_have_escaped]
    exact Or.inl h
  · simp [Environment.join, Environment.may_have_escaped]
    exact Or.inr h

/-- Witness for C7 at a concrete environment in which identity 5 has
escaped. -/
theorem spec_C7_escape_monotone_witness :
    (Environment.bot.set_may_escape 5).may_have_escaped 5 = true ∧
    ((∀ slot id2,
        ((Environment.bot.set_may_escape 5).set_fresh_pointer slot id2).may_have_escaped 5 = true) ∧
     (∀ dest src,
        ((Environment.bot.set_may_escape 5).set_alias dest src).may_have_escaped 5 = true) ∧
     (∀ id2,
        ((Environment.bot.set_may_escape 5).set_may_escape id2).may_have_escaped 5 = true) ∧
     (∀ slot,
        ((Environment.bot.set_may_escape 5).set_may_escape_slot slot).may_have_escaped 5 = true) ∧
     ((Environment.bot.set_may_escape 5).join Environment.bot).may_have_escaped 5 = true ∧
     (Environment.bot.join (Environment.bot.set_may_escape 5)).may_have_escaped 5 = true) :=
  ⟨by decide, spec_C7_escape_monotone (Environment.bot.set_may_escape 5) Environment.bot 5 (by decide)⟩

theorem setSlot_getD (l : List PointsToSet) (i : Nat) (p : PointsToSet) :
    (setSlot l i p).getD i PointsToSet.bot = p := by
  have hlen : i < (l ++ List.replicate (i + 1 - l.length) PointsToSet.bot).length := by
    simp [List.length_append, List.length_replicate]
    omega
  have h2 : i < l.length + (i + 1 - l.length) := by omega
  simp [setSlot, List.getD_eq_getElem?_getD, List.getElem?_set, hlen, h2]

theorem Environment.get_pointers_set_fresh (e : Environment) (i : Nat) (pp : PtrId) :
    (e.set_fresh_pointer i pp).get_pointers i = PointsToSet.singleton pp := by
  simpa [Environment.set_fresh_pointer, Environment.set_pointers,
    Environment.get_pointers] using setSlot_getD e.slots i (PointsToSet.singleton pp)

theorem escapeFold_slots (args : List Nat) (e : Environment) :
    (args.foldl (fun acc a => acc.set_may_escape_slot a) e).slots = e.slots := by
  induction args generalizing e with
  | nil => rfl
  | cons x rest ih => simpa [Environment.set_may_escape_slot] using ih (e.set_may_escape_slot x)

theorem escapeFold_escaped_mono (args : List Nat) (e : Environment) :
    e.escaped ⊆ (args.foldl (fun acc a => acc.set_may_escape_slot a) e).escaped := by
  induction args generalizing e with
  | nil => exact subset_rfl
  | cons x rest ih =>
    refine subset_trans ?_ (ih (e.set_may_escape_slot x))
    simp [Environment.set_may_escape_slot]

theorem escapeFold_mem (args : List Nat) (e : Environment) (a : Nat) (ha : a ∈ args)
    (id : PtrId) (hid : id ∈ (e.get_pointers a).elemsD) :
    id ∈ (args.foldl (fun acc a => acc.set_may_escape_slot a) e).escaped := by
  induction args generalizing e with
  | nil => cases ha
  | cons x rest ih =>
    simp only [List.foldl_cons]
    rcases List.mem_cons.mp ha with h | h
    · subst h
      refine escapeFold_escaped_mono rest _ ?_
      simp [Environment.set_may_escape_slot]
      exact Or.inr hid
    · refine ih _ h ?_
      have hs : (e.set_may_escape_slot x).get_pointers a = e.get_pointers a := rfl
      rwa [hs]

/-- C1: scenario D — a method that loads parameters into slots 0 and 1,
stores slot 1 to a static field and returns slot 0: at the checked fixpoint
the escape summary has escaping parameter set containing exactly 1 and
returned parameter set containing exactly 0, and the summary serializes
exactly as the text of two hash-tagged singleton lists. -/
theorem spec_C1_summary_scenD :
    fpStep cfgScenD [] Environment.bot (fpRun cfgScenD [] Environment.bot 2) =
      fpRun cfgScenD [] Environment.bot 2 ∧
    get_escape_summary cfgScenD [] (fpRun cfgScenD [] Environment.bot 2) =
      ⟨{1}, ParamSet.finite {0}⟩ ∧
    to_text ⟨{1}, ParamSet.finite {0}⟩ = "((#1) (#0))" := by
  refine ⟨by decide, by decide, ?_⟩
  have h : toTokens ⟨{1}, ParamSet.finite {0}⟩ =
      [Token.lp, Token.lp, Token.hash 1, Token.rp, Token.lp, Token.hash 0, Token.rp, Token.rp] := by
    simp [toTokens, Finset.sort_singleton]
  rw [to_text, h]
  decide

/-- C2: scenario E — a method that reads a static field into slot 0 and
returns it: the escape summary has no escaping parameters and a top returned
`ParamSet` (the returned points-to set holds the non-parameter identity 0
while the method has no formal parameters), and it serializes exactly as
`(() Top)`. -/
theorem spec_C2_summary_scenE :
    fpStep cfgScenE [] Environment.bot (fpRun cfgScenE [] Environment.bot 2) =
      fpRun cfgScenE [] Environment.bot 2 ∧
    get_escape_summary cfgScenE [] (fpRun cfgScenE [] Environment.bot 2) =
      ⟨∅, ParamSet.top⟩ ∧
    returnedUnion cfgScenE [] (fpRun cfgScenE [] Environment.bot 2) =
      PointsToSet.finite {0} ∧
    formalParams cfgScenE = [] ∧
    to_text ⟨∅, ParamSet.top⟩ = "(() Top)" := by
  refine ⟨by decide, by decide, by decide, by decide, ?_⟩
  have h : toTokens ⟨∅, ParamSet.top⟩ =
      [Token.lp, Token.lp, Token.rp, Token.atomTok topChars, Token.rp] := by
    simp [toTokens, Finset.sort_empty]
  rw [to_text, h]
  decide

/-- C4: scenario C — with two parameter loads, a conditional allocation, an
alias of slot 0 into slot 1 and a static store of slot 1, the checked
fixpoint's exit environment gives the returned slot 0 exactly the two
identities 0 (the parameter-0 load) and 3 (the conditional allocation), and
both are marked escaped. -/
theorem spec_C4_alias_escape :
    fpStep cfgScenC smapScenC Environment.bot (fpRun cfgScenC smapScenC Environment.bot 4) =
      fpRun cfgScenC smapScenC Environment.bot 4 ∧
    (exitState cfgScenC smapScenC (fpRun cfgScenC smapScenC Environment.bot 4)).get_pointers 0 =
      PointsToSet.finite {0, 3} ∧
    ({0, 3} : Finset PtrId).card = 2 ∧
    (exitState cfgScenC smapScenC (fpRun cfgScenC smapScenC Environment.bot 4)).may_have_escaped 0 = true ∧
    (exitState cfgScenC smapScenC (fpRun cfgScenC smapScenC Environment.bot 4)).may_have_escaped 3 = true := by
  decide

/-- C10: a fixpoint run without a summary-map argument is the run with the
empty map; on the empty map every call-site lookup misses, so a call
conservatively records every identity of every (finite) argument slot as
escaped and gives the consumed result slot a fresh call-site identity. -/
theorem spec_C10_no_summary_map :
    (∀ cfg init fuel, fpRunNoSummaries cfg init fuel = fpRun cfg [] init fuel) ∧
    (∀ pp, List.lookup pp ([] : InvokeToSummaryMap) = none) ∧
    (∀ pp args res e a s id, a ∈ args → (e.get_pointers a).elements = some s → id ∈ s →
       (transferInstr [] pp (Instr.invoke args res) e).may_have_escaped id = true) ∧
    (∀ pp args d e, (transferInstr [] pp (Instr.invoke args (some d)) e).get_pointers d =
       PointsToSet.singleton pp) := by
  refine ⟨fun cfg init fuel => rfl, fun pp => rfl, ?_, ?_⟩
  · intro pp args res e a s id ha hs hid
    have helems : id ∈ (e.get_pointers a).elemsD := by
      cases hgp : e.get_pointers a with
      | finite t =>
        rw [hgp] at hs
        simp [PointsToSet.elements] at hs
        simpa [PointsToSet.elemsD, hs] using hid
      | any => rw [hgp] at hs; simp [PointsToSet.elements] at hs
    have hmem := escapeFold_mem args e a ha id helems
    simp only [Environment.may_have_escaped, decide_eq_true_eq]
    cases res with
    | none => simpa [transferInstr] using hmem
    | some d =>
      simpa [transferInstr, Environment.set_fresh_pointer, Environment.set_pointers]
        using hmem
  · intro pp args d e
    show ((args.foldl (fun acc a => acc.set_may_escape_slot a) e).set_fresh_pointer d pp).get_pointers d =
      PointsToSet.singleton pp
    exact Environment.get_pointers_set_fresh _ d pp

/-- Witness for C10: a one-argument unknown call at program point 9 marks the
identity 7 held by argument slot 2 as escaped. -/
theorem spec_C10_no_summary_map_witness :
    ((2 : Nat) ∈ [2] ∧
     ((Environment.bot.set_fresh_pointer 2 7).get_pointers 2).elements = some {7} ∧
     (7 : PtrId) ∈ ({7} : Finset PtrId)) ∧
    (transferInstr [] 9 (Instr.invoke [2] none)
        (Environment.bot.set_fresh_pointer 2 7)).may_have_escaped 7 = true :=
  ⟨⟨by decide, by decide, by decide⟩,
   spec_C10_no_summary_map.2.2.1 9 [2] none (Environment.bot.set_fresh_pointer 2 7) 2 {7} 7
     (by decide) (by decide) (by decide)⟩

/-- Witness for C6 at three concrete environments. -/
theorem spec_C6_lattice_laws_witness :
    (Environment.bot.set_fresh_pointer 0 1).join (Environment.bot.set_may_escape 2) =
      (Environment.bot.set_may_escape 2).join (Environment.bot.set_fresh_pointer 0 1) ∧
    ((Environment.bot.set_fresh_pointer 0 1).join (Environment.bot.set_may_escape 2)).join
        Environment.bot =
      (Environment.bot.set_fresh_pointer 0 1).join
        ((Environment.bot.set_may_escape 2).join Environment.bot) ∧
    (Environment.bot.set_fresh_pointer 0 1).join (Environment.bot.set_fresh_pointer 0 1) =
      Environment.bot.set_fresh_pointer 0 1 ∧
    (Environment.bot.set_fresh_pointer 0 1).le
      ((Environment.bot.set_fresh_pointer 0 1).join (Environment.bot.set_may_escape 2)) ∧
    (Environment.bot.set_may_escape 2).le
      ((Environment.bot.set_fresh_pointer 0 1).join (Environment.bot.set_may_escape 2)) :=
  spec_C6_lattice_laws (Environment.bot.set_fresh_pointer 0 1)
    (Environment.bot.set_may_escape 2) Environment.bot

theorem dChar_facts : ∀ d, d < 10 → (dChar d).isDigit = true ∧ (dChar d).toNat - 48 = d := by
  decide

theorem digitCharsAux_digits (fuel : Nat) : ∀ n, ∀ c ∈ digitCharsAux fuel n, c.isDigit = true := by
  induction fuel with
  | zero => intro n c hc; simp [digitCharsAux] at hc
  | succ f ih =>
    intro n c hc
    cases n with
    | zero => simp [digitCharsAux] at hc
    | succ m =>
      simp only [digitCharsAux, List.mem_append, List.mem_singleton] at hc
      rcases hc with hc | hc
      · exact ih _ c hc
      · subst hc
        exact (dChar_facts _ (Nat.mod_lt _ (by omega))).1

theorem digitChars_digits (n : Nat) : ∀ c ∈ digitChars n, c.isDigit = true := by
  intro c hc
  by_cases h : n = 0
  · subst h
    simp [digitChars] at hc
    subst hc
    decide
  · simp [digitChars, h] at hc
    exact digitCharsAux_digits n n c hc

theorem digitCharsAux_ne_nil (fuel n : Nat) (h0 : 0 < n) (hf : n ≤ fuel) :
    digitCharsAux fuel n ≠ [] := by
  cases fuel with
  | zero => omega
  | succ f =>
    cases n with
    | zero => omega
    | succ m => simp [digitCharsAux]

theorem digitChars_ne_nil (n : Nat) : digitChars n ≠ [] := by
  by_cases h : n = 0
  · simp [digitChars, h]
  · simpa [digitChars, h] using digitCharsAux_ne_nil n n (by omega) le_rfl

theorem digitCharsAux_val (fuel : Nat) : ∀ n v, n ≤ fuel →
    (digitCharsAux fuel n).foldl (fun a c => a * 10 + (c.toNat - 48)) v =
      v * 10 ^ (digitCharsAux fuel n).length + n := by
  induction fuel with
  | zero =>
    intro n v h
    interval_cases n
    simp [digitCharsAux]
  | succ f ih =>
    intro n v h
    cases n with
    | zero => simp [digitCharsAux]
    | succ m =>
      have hq : (m + 1) / 10 ≤ f := by
        have := Nat.div_lt_self (Nat.succ_pos m) (by omega : 1 < 10)
        omega
      have hr : (dChar ((m + 1) % 10)).toNat - 48 = (m + 1) % 10 :=
        (dChar_facts _ (Nat.mod_lt _ (by omega))).2
      rw [digitCharsAux, List.foldl_append, ih _ v hq]
      simp only [List.foldl_cons, List.foldl_nil, List.length_append, List.length_singleton]
      rw [hr, pow_succ]
      have hdm : (m + 1) / 10 * 10 + (m + 1) % 10 = m + 1 := Nat.div_add_mod' (m + 1) 10
      calc (v * 10 ^ (digitCharsAux f ((m + 1) / 10)).length + (m + 1) / 10) * 10 + (m + 1) % 10
          = v * (10 ^ (digitCharsAux f ((m + 1) / 10)).length * 10) +
              ((m + 1) / 10 * 10 + (m + 1) % 10) := by ring
        _ = v * (10 ^ (digitCharsAux f ((m + 1) / 10)).length * 10) + (m + 1) := by rw [hdm]

theorem digitChars_val (n : Nat) :
    (digitChars n).foldl (fun a c => a * 10 + (c.toNat - 48)) 0 = n := by
  by_cases h : n = 0
  · subst h; decide
  · simpa [digitChars, h] using digitCharsAux_val n n 0 le_rfl

theorem lex_digits_from_num (ds : List Char) (hds : ∀ c ∈ ds, c.isDigit = true) :
    ∀ acc v, List.foldl lexStep (some (acc, LexState.num v)) ds =
      some (acc, LexState.num (ds.foldl (fun a c => a * 10 + (c.toNat - 48)) v)) := by
  induction ds with
  | nil => intro acc v; rfl
  | cons c rest ih =>
    intro acc v
    have hc : c.isDigit = true := hds c (by simp)
    simp only [List.foldl_cons, lexStep, hc, if_true]
    exact ih (fun c hc => hds c (by simp [hc])) acc _

theorem lex_digits_from_numStart (ds : List Char) (hds : ∀ c ∈ ds, c.isDigit = true)
    (hne : ds ≠ []) (acc : List Token) :
    List.foldl lexStep (some (acc, LexState.numStart)) ds =
      some (acc, LexState.num (ds.foldl (fun a c => a * 10 + (c.toNat - 48)) 0)) := by
  cases ds with
  | nil => exact absurd rfl hne
  | cons c rest =>
    have hc : c.isDigit = true := hds c (by simp)
    simp only [List.foldl_cons, lexStep, hc, if_true]
    have := lex_digits_from_num rest (fun c hc => hds c (by simp [hc])) acc (c.toNat - 48)
    rw [this]
    congr 2
    simp

theorem stepReady_alpha (acc : List Token) (c : Char) (h : c.isAlpha = true) :
    stepReady acc c = some (acc, LexState.word [c]) := by
  have h1 : c ≠ '(' := by rintro rfl; exact absurd h (by decide)
  have h2 : c ≠ ')' := by rintro rfl; exact absurd h (by decide)
  have h3 : c ≠ ' ' := by rintro rfl; exact absurd h (by decide)
  have h4 : c ≠ '#' := by rintro rfl; exact absurd h (by decide)
  simp [stepReady, h1, h2, h3, h4, h]

theorem lex_word_run (cs : List Char) (h : ∀ c ∈ cs, c.isAlpha = true) :
    ∀ acc w, List.foldl lexStep (some (acc, LexState.word w)) cs =
      some (acc, LexState.word (cs.reverse ++ w)) := by
  induction cs with
  | nil => intro acc w; rfl
  | cons c rest ih =>
    intro acc w
    have hc : c.isAlpha = true := h c (by simp)
    simp only [List.foldl_cons, lexStep, hc, if_true]
    rw [ih (fun c hc => h c (by simp [hc])) acc (c :: w)]
    simp

theorem lex_tok (t : Token) (acc : List Token) (hwf : t.wf) :
    List.foldl lexStep (some (acc, LexState.ready)) (tokChars t) = some (postOf t acc) := by
  cases t with
  | lp => rfl
  | rp => rfl
  | hash n =>
    show List.foldl lexStep (some (acc, LexState.ready)) ('#' :: digitChars n) = _
    have h1 : lexStep (some (acc, LexState.ready)) '#' = some (acc, LexState.numStart) := rfl
    simp only [List.foldl_cons, h1]
    rw [lex_digits_from_numStart (digitChars n) (digitChars_digits n) (digitChars_ne_nil n) acc]
    rw [digitChars_val n]
    rfl
  | atomTok cs =>
    obtain ⟨hne, hal⟩ := hwf
    cases cs with
    | nil => exact absurd rfl hne
    | cons c rest =>
      have hc : c.isAlpha = true := hal c (by simp)
      show List.foldl lexStep (some (acc, LexState.ready)) (c :: rest) = _
      simp only [List.foldl_cons]
      have h1 : lexStep (some (acc, LexState.ready)) c = some (acc, LexState.word [c]) := by
        show stepReady acc c = _
        exact stepReady_alpha acc c hc
      rw [h1, lex_word_run rest (fun x hx => hal x (by simp [hx])) acc [c]]
      simp [postOf]

theorem lexStep_lparen (acc : List Token) (st : LexState) (h : st.flushable) :
    lexStep (some (acc, st)) '(' =
      some (acc ++ flushT st ++ [Token.lp], LexState.ready) := by
  cases st with
  | ready => simp [lexStep, stepReady, flushT]
  | numStart => exact absurd h (by simp [LexState.flushable])
  | num v => simp [lexStep, stepReady, flushT]
  | word cs => simp [lexStep, stepReady, flushT]

theorem lexStep_rparen (acc : List Token) (st : LexState) (h : st.flushable) :
    lexStep (some (acc, st)) ')' =
      some (acc ++ flushT st ++ [Token.rp], LexState.ready) := by
  cases st with
  | ready => simp [lexStep, stepReady, flushT]
  | numStart => exact absurd h (by simp [LexState.flushable])
  | num v => simp [lexStep, stepReady, flushT]
  | word cs => simp [lexStep, stepReady, flushT]

theorem lexStep_space (acc : List Token) (st : LexState) (h : st.flushable) :
    lexStep (some (acc, st)) ' ' = some (acc ++ flushT st, LexState.ready) := by
  cases st with
  | ready => simp [lexStep, stepReady, flushT]
  | numStart => exact absurd h (by simp [LexState.flushable])
  | num v => simp [lexStep, stepReady, flushT]
  | word cs => simp [lexStep, stepReady, flushT]

theorem lexFinish_flush (acc : List Token) (st : LexState) (h : st.flushable) :
    lexFinish (some (acc, st)) = some (acc ++ flushT st) := by
  cases st with
  | ready => simp [lexFinish, flushT]
  | numStart => exact absurd h (by simp [LexState.flushable])
  | num v => simp [lexFinish, flushT]
  | word cs => simp [lexFinish, flushT]

theorem postOf_flush (t : Token) (acc : List Token) :
    (postOf t acc).1 ++ flushT (postOf t acc).2 = acc ++ [t] := by
  cases t <;> simp [postOf, flushT]

theorem postOf_flushable (t : Token) (acc : List Token) : (postOf t acc).2.flushable := by
  cases t <;> simp [postOf, LexState.flushable]

theorem renderToks_cons_head (t : Token) (rest : List Token) :
    ∃ tail, renderToks (t :: rest) = tokChars t ++ tail := by
  cases rest with
  | nil => exact ⟨[], by simp [renderToks]⟩
  | cons u r2 =>
    exact ⟨(if needSpace t u then [' '] else []) ++ renderToks (u :: r2), by simp [renderToks]⟩

theorem headBound_rp (l : List Token) : headBound (renderToks (Token.rp :: l)) := by
  cases l with
  | nil => simp [renderToks, tokChars, headBound]
  | cons u r => simp [renderToks, tokChars, headBound]

theorem lex_render (ts : List Token) : ∀ acc st, (∀ t ∈ ts, t.wf) → st.flushable →
    (st = LexState.ready ∨ headBound (renderToks ts)) →
    lexFinish (List.foldl lexStep (some (acc, st)) (renderToks ts)) =
      some (acc ++ flushT st ++ ts) := by
  induction ts with
  | nil =>
    intro acc st hwf hfl _
    simp only [renderToks, List.foldl_nil]
    rw [lexFinish_flush acc st hfl]
    simp
  | cons t rest ih =>
    intro acc st hwf hfl hd
    have hwt : t.wf := hwf t (by simp)
    have hA : List.foldl lexStep (some (acc, st)) (tokChars t) =
        some (postOf t (acc ++ flushT st)) := by
      by_cases hst : st = LexState.ready
      · subst hst
        simpa [flushT] using lex_tok t acc hwt
      · have hb : headBound (renderToks (t :: rest)) := hd.resolve_left hst
        obtain ⟨tail, htail⟩ := renderToks_cons_head t rest
        rw [htail] at hb
        have hpar : t = Token.lp ∨ t = Token.rp := by
          cases t with
          | lp => exact Or.inl rfl
          | rp => exact Or.inr rfl
          | hash n =>
            exfalso
            simp only [tokChars, List.cons_append, headBound] at hb
            rcases hb with h | h <;> exact absurd h (by decide)
          | atomTok cs =>
            exfalso
            obtain ⟨hne, hal⟩ := hwt
            cases cs with
            | nil => exact hne rfl
            | cons c cs2 =>
              simp only [tokChars, List.cons_append, headBound] at hb
              have hc : c.isAlpha = true := hal c (by simp)
              rcases hb with h | h <;> (subst h; exact absurd hc (by decide))
        rcases hpar with rfl | rfl
        · show List.foldl lexStep (some (acc, st)) ['('] = _
          simp only [List.foldl_cons, List.foldl_nil]
          rw [lexStep_lparen acc st hfl]
          simp [postOf]
        · show List.foldl lexStep (some (acc, st)) [')'] = _
          simp only [List.foldl_cons, List.foldl_nil]
          rw [lexStep_rparen acc st hfl]
          simp [postOf]
    cases rest with
    | nil =>
      have hren : renderToks [t] = tokChars t := by simp [renderToks]
      rw [hren, hA, lexFinish_flush _ _ (postOf_flushable t _), postOf_flush]
    | cons u rest2 =>
      have hren : renderToks (t :: u :: rest2) =
          tokChars t ++ ((if needSpace t u then [' '] else []) ++ renderToks (u :: rest2)) := by
        simp [renderToks]
      rw [hren, List.foldl_append, hA]
      by_cases hsp : needSpace t u = true
      · rw [if_pos hsp, List.foldl_append]
        simp only [List.foldl_cons, List.foldl_nil]
        rw [lexStep_space _ _ (postOf_flushable t _), postOf_flush]
        rw [ih ((acc ++ flushT st) ++ [t]) LexState.ready
          (fun x hx => hwf x (by simp [hx])) trivial (Or.inl rfl)]
        simp [flushT]
      · rw [if_neg hsp]
        simp only [List.nil_append]
        have hcase : t = Token.lp ∨ u = Token.rp := by
          cases t <;> cases u <;> simp_all [needSpace, Token.isLp, Token.isRp]
        rcases hcase with rfl | rfl
        · have hp : postOf Token.lp (acc ++ flushT st) =
              ((acc ++ flushT st) ++ [Token.lp], LexState.ready) := rfl
          rw [hp]
          rw [ih ((acc ++ flushT st) ++ [Token.lp]) LexState.ready
            (fun x hx => hwf x (by simp [hx])) trivial (Or.inl rfl)]
          simp [flushT]
        · have hh : headBound (renderToks (Token.rp :: rest2)) := headBound_rp rest2
          have hfl2 := postOf_flushable t (acc ++ flushT st)
          have hkey := ih (postOf t (acc ++ flushT st)).1 (postOf t (acc ++ flushT st)).2
            (fun x hx => hwf x (by simp [hx])) hfl2 (Or.inr hh)
          have hsome : some (postOf t (acc ++ flushT st)) =
              some ((postOf t (acc ++ flushT st)).1, (postOf t (acc ++ flushT st)).2) := rfl
          rw [hsome, hkey]
          have hfl3 := postOf_flush t (acc ++ flushT st)
          rw [hfl3]
          simp

theorem topTok_wf : (Token.atomTok topChars).wf := by
  constructor
  · decide
  · decide

theorem toTokens_wf (s : EscapeSummary) : ∀ t ∈ toTokens s, t.wf := by
  intro t ht
  cases t with
  | lp => trivial
  | rp => trivial
  | hash n => trivial
  | atomTok cs =>
    have hcs : cs = topChars := by
      cases hr : s.returned_parameters with
      | top =>
        simp [toTokens, hr] at ht
        exact ht
      | finite ps =>
        simp [toTokens, hr] at ht
    subst hcs
    exact topTok_wf

theorem lexText_toTokens (s : EscapeSummary) : lexText (to_text s) = some (toTokens s) := by
  show lexFinish (List.foldl lexStep (some ([], LexState.ready)) (renderToks (toTokens s))) = _
  rw [lex_render (toTokens s) [] LexState.ready (toTokens_wf s) trivial (Or.inl rfl)]
  simp [flushT]

theorem parseHashes_map (l : List Nat) (r : List Token) :
    parseHashes (l.map Token.hash ++ Token.rp :: r) = (l, Token.rp :: r) := by
  induction l with
  | nil => rfl
  | cons n rest ih => simp [parseHashes, ih]

/-- C3: decoding the textual encoding of any escape summary restores that
summary: `from_text (to_text s) = ok s`. -/
theorem spec_C3_roundtrip (s : EscapeSummary) : from_text (to_text s) = Except.ok s := by
  show (match lexText (to_text s) with
    | none => Except.error "unreadable token stream"
    | some ts => fromTokens ts) = Except.ok s
  rw [lexText_toTokens]
  show fromTokens (toTokens s) = Except.ok s
  cases s with
  | mk esc ret =>
    cases ret with
    | top =>
      have ht : toTokens ⟨esc, ParamSet.top⟩ =
          Token.lp :: Token.lp :: ((esc.sort (· ≤ ·)).map Token.hash ++
            Token.rp :: [Token.atomTok topChars, Token.rp]) := by
        simp [toTokens]
      rw [ht]
      show fromTokens2 (parseHashes ((esc.sort (· ≤ ·)).map Token.hash ++
        Token.rp :: [Token.atomTok topChars, Token.rp])) = _
      rw [parseHashes_map]
      show fromTokens3 (esc.sort (· ≤ ·)) [Token.atomTok topChars, Token.rp] = _
      simp [fromTokens3, Finset.sort_toFinset]
    | finite ps =>
      have ht : toTokens ⟨esc, ParamSet.finite ps⟩ =
          Token.lp :: Token.lp :: ((esc.sort (· ≤ ·)).map Token.hash ++
            Token.rp :: (Token.lp :: ((ps.sort (· ≤ ·)).map Token.hash ++
              Token.rp :: [Token.rp]))) := by
        simp [toTokens]
      rw [ht]
      show fromTokens2 (parseHashes ((esc.sort (· ≤ ·)).map Token.hash ++
        Token.rp :: (Token.lp :: ((ps.sort (· ≤ ·)).map Token.hash ++
          Token.rp :: [Token.rp])))) = _
      rw [parseHashes_map]
      show fromTokens3 (esc.sort (· ≤ ·)) (Token.lp :: ((ps.sort (· ≤ ·)).map Token.hash ++
        Token.rp :: [Token.rp])) = _
      show fromTokens4 (esc.sort (· ≤ ·)) (parseHashes ((ps.sort (· ≤ ·)).map Token.hash ++
        Token.rp :: [Token.rp])) = _
      rw [parseHashes_map]
      simp [fromTokens4, Finset.sort_toFinset]

/-- C8: `elements` on a top points-to set fails (yields no value), and
`elements` is defined exactly when `is_top` is false. -/
theorem spec_C8_elements_top (p : PointsToSet) :
    (p.is_top = true → p.elements = none) ∧
    (p.elements.isSome = true ↔ p.is_top = false) := by
  cases p <;> simp [PointsToSet.elements, PointsToSet.is_top]

/-- Witness for C8 at the top points-to set. -/
theorem spec_C8_elements_top_witness :
    PointsToSet.any.is_top = true ∧ PointsToSet.any.elements = none :=
  ⟨by decide, (spec_C8_elements_top PointsToSet.any).1 (by decide)⟩

theorem parseHashes_shape (ts : List Token) :
    ts = (parseHashes ts).1.map Token.hash ++ (parseHashes ts).2 := by
  induction ts with
  | nil => rfl
  | cons t rest ih =>
    cases t with
    | hash n => exact congrArg (fun l => Token.hash n :: l) ih
    | lp => rfl
    | rp => rfl
    | atomTok cs => rfl

theorem fromTokens4_ok (es : List Nat) (p : List Nat × List Token) (s : EscapeSummary)
    (h : fromTokens4 es p = Except.ok s) :
    p.2 = [Token.rp, Token.rp] ∧ s = ⟨es.toFinset, ParamSet.finite p.1.toFinset⟩ := by
  obtain ⟨rs, rem⟩ := p
  cases rem with
  | nil => simp [fromTokens4] at h
  | cons a r1 =>
    cases a with
    | rp =>
      cases r1 with
      | nil => simp [fromTokens4] at h
      | cons b r2 =>
        cases b with
        | rp =>
          cases r2 with
          | nil =>
            have h' : Except.ok (⟨es.toFinset, ParamSet.finite rs.toFinset⟩ : EscapeSummary) =
                Except.ok s := h
            injection h' with h2
            exact ⟨rfl, h2.symm⟩
          | cons c r3 => simp [fromTokens4] at h
        | lp => simp [fromTokens4] at h
        | hash n => simp [fromTokens4] at h
        | atomTok cs => simp [fromTokens4] at h
    | lp => simp [fromTokens4] at h
    | hash n => simp [fromTokens4] at h
    | atomTok cs => simp [fromTokens4] at h

theorem fromTokens3_ok (es : List Nat) (rest : List Token) (s : EscapeSummary)
    (h : fromTokens3 es rest = Except.ok s) :
    (rest = [Token.atomTok topChars, Token.rp] ∧ s = ⟨es.toFinset, ParamSet.top⟩) ∨
    (∃ r3, rest = Token.lp :: r3 ∧ fromTokens4 es (parseHashes r3) = Except.ok s) := by
  cases rest with
  | nil => simp [fromTokens3] at h
  | cons a r1 =>
    cases a with
    | lp => exact Or.inr ⟨r1, rfl, h⟩
    | rp => simp [fromTokens3] at h
    | hash n => simp [fromTokens3] at h
    | atomTok cs =>
      cases r1 with
      | nil => simp [fromTokens3] at h
      | cons b r2 =>
        cases b with
        | rp =>
          cases r2 with
          | nil =>
            have h' : (if cs = topChars then
                Except.ok (⟨es.toFinset, ParamSet.top⟩ : EscapeSummary)
              else Except.error "unknown literal where Top was expected") = Except.ok s := h
            by_cases hc : cs = topChars
            · rw [if_pos hc] at h'
              injection h' with h2
              exact Or.inl ⟨by rw [hc], h2.symm⟩
            · rw [if_neg hc] at h'
              exact absurd h' (by simp)
          | cons c r3 => simp [fromTokens3] at h
        | lp => simp [fromTokens3] at h
        | hash n => simp [fromTokens3] at h
        | atomTok cs2 => simp [fromTokens3] at h

theorem fromTokens2_ok (p : List Nat × List Token) (s : EscapeSummary)
    (h : fromTokens2 p = Except.ok s) :
    ∃ rest, p.2 = Token.rp :: rest ∧ fromTokens3 p.1 rest = Except.ok s := by
  obtain ⟨es, rem⟩ := p
  cases rem with
  | nil => simp [fromTokens2] at h
  | cons a r1 =>
    cases a with
    | rp => exact ⟨r1, rfl, h⟩
    | lp => simp [fromTokens2] at h
    | hash n => simp [fromTokens2] at h
    | atomTok cs => simp [fromTokens2] at h

theorem fromTokens_ok (ts : List Token) (s : EscapeSummary)
    (h : fromTokens ts = Except.ok s) :
    ∃ rest, ts = Token.lp :: Token.lp :: rest ∧
      fromTokens2 (parseHashes rest) = Except.ok s := by
  cases ts with
  | nil => simp [fromTokens] at h
  | cons a r1 =>
    cases a with
    | lp =>
      cases r1 with
      | nil => simp [fromTokens] at h
      | cons b r2 =>
        cases b with
        | lp => exact ⟨r2, rfl, h⟩
        | rp => simp [fromTokens] at h
        | hash n => simp [fromTokens] at h
        | atomTok cs => simp [fromTokens] at h
    | rp => simp [fromTokens] at h
    | hash n => simp [fromTokens] at h
    | atomTok cs => simp [fromTokens] at h

/-- C9: any token stream the decoder accepts is exactly grammatical — two
parenthesized forms whose accepted tokens fully determine the summary (so no
default is ever substituted) — and representative malformed inputs of each
kind (wrong arity, a non-integer token where `#<n>` is expected, an unknown
literal where `Top` is expected) fail with a recoverable parse error. -/
theorem spec_C9_parse_errors :
    (∀ ts s, fromTokens ts = Except.ok s →
      (∃ l : List Nat, ts = Token.lp :: Token.lp :: (l.map Token.hash ++
          [Token.rp, Token.atomTok topChars, Token.rp]) ∧
        s = ⟨l.toFinset, ParamSet.top⟩) ∨
      (∃ l m : List Nat, ts = Token.lp :: Token.lp :: (l.map Token.hash ++
          Token.rp :: Token.lp :: (m.map Token.hash ++ [Token.rp, Token.rp])) ∧
        s = ⟨l.toFinset, ParamSet.finite m.toFinset⟩)) ∧
    from_text "((#1))" = Except.error "malformed returned part" ∧
    from_text "((#1) (#0) (#2))" = Except.error "malformed returned parameter list" ∧
    from_text "((Foo) (#0))" = Except.error "non-integer token in escaping list" ∧
    from_text "(() Bot)" = Except.error "unknown literal where Top was expected" := by
  refine ⟨?_, rfl, rfl, rfl, rfl⟩
  intro ts s h
  obtain ⟨rest, rfl, h2⟩ := fromTokens_ok ts s h
  obtain ⟨rem, hrem, h3⟩ := fromTokens2_ok _ _ h2
  have hshape := parseHashes_shape rest
  rcases fromTokens3_ok _ _ _ h3 with ⟨hremEq, hsEq⟩ | ⟨r3, hremEq, h4⟩
  · left
    refine ⟨(parseHashes rest).1, ?_, hsEq⟩
    conv_lhs => rw [hshape, hrem, hremEq]
  · right
    obtain ⟨hr2, hsEq⟩ := fromTokens4_ok _ _ _ h4
    have hshape3 := parseHashes_shape r3
    rw [hr2] at hshape3
    refine ⟨(parseHashes rest).1, (parseHashes r3).1, ?_, hsEq⟩
    conv_lhs => rw [hshape, hrem, hremEq, hshape3]

/-- Witness for C9: the accepted stream of `(() Top)` is inverted to its
grammatical shape. -/
theorem spec_C9_parse_errors_witness :
    fromTokens [Token.lp, Token.lp, Token.rp, Token.atomTok topChars, Token.rp] =
      Except.ok ⟨∅, ParamSet.top⟩ ∧
    ((∃ l : List Nat, [Token.lp, Token.lp, Token.rp, Token.atomTok topChars, Token.rp] =
        Token.lp :: Token.lp :: (l.map Token.hash ++
          [Token.rp, Token.atomTok topChars, Token.rp]) ∧
      (⟨∅, ParamSet.top⟩ : EscapeSummary) = ⟨l.toFinset, ParamSet.top⟩) ∨
     (∃ l m : List Nat, [Token.lp, Token.lp, Token.rp, Token.atomTok topChars, Token.rp] =
        Token.lp :: Token.lp :: (l.map Token.hash ++
          Token.rp :: Token.lp :: (m.map Token.hash ++ [Token.rp, Token.rp])) ∧
      (⟨∅, ParamSet.top⟩ : EscapeSummary) = ⟨l.toFinset, ParamSet.finite m.toFinset⟩)) :=
  ⟨rfl, spec_C9_parse_errors.1 _ _ rfl⟩

/-- Witness for C3 at a concrete summary. -/
theorem spec_C3_roundtrip_witness :
    from_text (to_text ⟨{1}, ParamSet.finite {0}⟩) =
      Except.ok (⟨{1}, ParamSet.finite {0}⟩ : EscapeSummary) :=
  spec_C3_roundtrip ⟨{1}, ParamSet.finite {0}⟩
